import Mathlib

/-!
Verification development for the `midi2psx` MIDI → FDSS transcoder
(`src/main.rs`).  The translator core is embedded shallowly:

* the 32-entry wait-tick denomination table and the greedy gap
  quantization loop (`main`, lines 70–84),
* the per-tick-group event translation with its RPN selector state
  (`main`, lines 85–150),
* the `FlanSeqCommand` enum and its `serialize` method (lines 172–209),
* the track merger (lines 54–62) and the FDSS output buffer
  (lines 152–163).

Machine integers are modelled as `Nat`/`Int` with explicit `% 2^w`
where the Rust code narrows; the `f32`/`f64` computations (pitch-bend
and tempo scaling) are modelled over `ℚ` with explicit rounding /
truncation matching Rust's `.round()` and `as i16` semantics.
-/

/-- The fixed wait-duration denomination table (`WAIT_TICK_LUT`,
`src/main.rs` lines 211–216). -/
def WAIT_TICK_LUT : List Nat :=
  [1,      2,      3,      4,      6,      8,      12,     16,
   20,     24,     28,     32,     40,     48,     56,     64,
   80,     96,     112,    128,    160,    192,    224,    256,
   320,    384,    448,    512,    640,    768,    896,    1024]

/-- Value of the LUT at index `i` (out-of-range reads default to 0;
the translator only ever produces indices `< 32`). -/
def lutv (i : Nat) : Nat := WAIT_TICK_LUT.getD i 0

/-- One pass of the inner `for index in (0..WAIT_TICK_LUT.len()).rev()`
loop: the first (i.e. largest) index whose LUT entry fits in the
remaining gap `g` (`src/main.rs` lines 76–81). -/
def pickIndex (g : Nat) : Option Nat :=
  (List.range WAIT_TICK_LUT.length).reverse.find? (fun i => decide (lutv i ≤ g))

/-- Fuel-indexed version of the `while delta_time_left > 0` loop
(`src/main.rs` lines 75–82): each iteration picks the largest
denomination that fits and subtracts it.  The `none` branch is
unreachable because `lutv 0 = 1`; in the source it would be an
infinite loop, here it cuts the run short. -/
def greedyRunAux : Nat → Nat → List Nat
  | 0, _ => []
  | fuel + 1, g =>
    if g = 0 then []
    else
      match pickIndex g with
      | some i => i :: greedyRunAux fuel (g - lutv i)
      | none => []

/-- The list of LUT indices emitted (as `WaitTicks` commands) for a
remaining gap `g`.  Fuel `g` suffices: every iteration removes at
least one tick. -/
def greedyRun (g : Nat) : List Nat := greedyRunAux g g

/-- The output command set (`enum FlanSeqCommand`, `src/main.rs`
lines 172–188).  `u8`/`u16` fields are modelled as `Nat` (narrowing is
made explicit in `serialize`), the `i16` pitch as `Int`, the `usize`
LUT index as `Nat`. -/
inductive FlanSeqCommand where
  | ReleaseNote (channel key : Nat)
  | PlayNote (channel key velocity : Nat)
  | SetChannelVolume (channel volume : Nat)
  | SetChannelPanning (channel panning : Nat)
  | SetChannelPitch (channel : Nat) (pitch : Int)
  | SetChannelInstrument (channel index : Nat)
  | SetTempo (tempo : Nat)
  | WaitTicks (index_into_lut : Nat)
  | SetTimeSignature (numerator denominator : Nat)
  | SetLoopStart
  | JumpToLoopStart
deriving DecidableEq, Repr

/-- Serialization of a command (`FlanSeqCommand::serialize`,
`src/main.rs` lines 190–209).  Bytes
are `Nat`s; every place the Rust code narrows (`as u8`, `i16`
little-endian bytes, `u8` addition) carries an explicit `% 256` /
`% 65536`. -/
def FlanSeqCommand.serialize : FlanSeqCommand → List Nat
  | .ReleaseNote channel key => [0x00 ||| channel, key]
  | .PlayNote channel key velocity => [0x10 ||| channel, key, velocity]
  | .SetChannelVolume channel volume => [0x20 ||| channel, volume]
  | .SetChannelPanning channel panning => [0x30 ||| channel, panning]
  | .SetChannelPitch channel pitch =>
      let p := (pitch % 65536).toNat
      [0x40 ||| channel, p % 256, p / 256]
  | .SetChannelInstrument channel index => [0x50 ||| channel, index]
  | .SetTempo tempo => [0x80 ||| ((tempo >>> 8) % 256), tempo &&& 0xFF]
  | .WaitTicks index_into_lut => [(0xA0 + index_into_lut % 256) % 256]
  | .SetTimeSignature numerator denominator => [0xFD, numerator, denominator]
  | .SetLoopStart => [0xFE]
  | .JumpToLoopStart => [0xFF]

/-- Little-endian bytes of a `u32`, as laid down by
`u32::to_le_bytes`. -/
def u32le (n : Nat) : List Nat :=
  [n % 256, n / 256 % 256, n / 65536 % 256, n / 16777216 % 256]

/-- The fixed FDSS header the encoder emits (`src/main.rs`
lines 153–158): magic, section count 1, section-table offset 0,
section-data offset 4, first section start offset 0. -/
def headerBytes : List Nat :=
  ("FDSS".data.map Char.toNat) ++ u32le 1 ++ u32le 0 ++ u32le 4 ++ u32le 0

/-- The full output buffer (`src/main.rs` lines 153–163): the header
followed by each command's serialization, appended in order. -/
def outputBytes (cmds : List FlanSeqCommand) : List Nat :=
  cmds.foldl (fun out c => out ++ c.serialize) headerBytes

/-- MIDI channel messages, restricted to the shapes `main`'s match
distinguishes (`src/main.rs` lines 90–125).  `u7` fields are `Nat`s
(always `< 128` in real inputs).  `PitchBend` carries the normalized
bend value produced by the external decoder's `bend.as_f32()` — a
signed fraction of full range — modelled as a rational.  `Other`
stands for every channel message the translator logs and skips. -/
inductive MidiMsg where
  | NoteOn (key vel : Nat)
  | NoteOff (key vel : Nat)
  | ProgramChange (program : Nat)
  | PitchBend (bend : ℚ)
  | Controller (controller value : Nat)
  | Other
deriving DecidableEq

/-- MIDI meta messages the translator distinguishes (`src/main.rs`
lines 128–145); `Other` stands for every skipped meta message. -/
inductive MetaMsg where
  | Tempo (microsecondsPerQuarterNote : Nat)
  | TimeSignature (numerator denomExponent clocksPerClick n32PerQuarter : Nat)
  | Other
deriving DecidableEq

/-- A decoded track event (`midly::TrackEventKind` as matched in
`src/main.rs` lines 88–148); `Other` covers SysEx/escape events. -/
inductive TrackEventKind where
  | Midi (channel : Nat) (message : MidiMsg)
  | Meta (message : MetaMsg)
  | Other
deriving DecidableEq

/-- The file-level time division (`midly::Timing`,
matched at `src/main.rs` lines 130–133). -/
inductive Timing where
  | Metrical (ticksPerQuarterNote : Nat)
  | Timecode (fps subframe : Nat)
deriving DecidableEq

/-- Rust float-to-integer truncation toward zero (`as i16` on a
finite value, before saturation). -/
def truncRat (q : ℚ) : Int := if 0 ≤ q then ⌊q⌋ else ⌈q⌉

/-- Rust `as i16` on an `f32`: truncate toward zero and saturate to
the `i16` range. -/
def i16OfRat (q : ℚ) : Int := max (-32768) (min 32767 (truncRat q))

/-- The state local to one tick group of the translator loop: the
persistent `pitch_bend_range_coarse` / `pitch_bend_range_fine`
(threaded through every group) and the per-group RPN selectors
`cc100` / `cc101`, which `main` re-initializes to `-1` ("unset") at
the start of each group (`src/main.rs` lines 85–86). -/
structure GState where
  pitch_bend_range_coarse : Nat
  pitch_bend_range_fine : Nat
  cc100 : Int
  cc101 : Int
deriving DecidableEq

/-- The group-entry state: selectors freshly reset to `-1`
(`let mut cc100 = -1; let mut cc101 = -1;`). -/
def resetG (coarse fine : Nat) : GState :=
  { pitch_bend_range_coarse := coarse, pitch_bend_range_fine := fine,
    cc100 := -1, cc101 := -1 }

/-- The panic message of `src/main.rs` line 132. -/
def timecodePanic : String :=
  "Attempted tempo change with fixed timecode for time division!"

/-- One iteration of the inner `for event in events` loop
(`src/main.rs` lines 87–149): state update plus the commands pushed
for this event.  The `f32` pitch-bend computation (lines 101–106) and
the `f64` tempo computation (lines 129–139) are modelled over `ℚ`;
the `panic!` on a timecode time division is an `Except.error`. -/
def processEvent (timing : Timing) (g : GState) :
    TrackEventKind → Except String (GState × List FlanSeqCommand)
  | .Midi channel message =>
    match message with
    | .NoteOn key vel => .ok (g, [.PlayNote channel key vel])
    | .NoteOff key _vel => .ok (g, [.ReleaseNote channel key])
    | .ProgramChange program =>
        let index := if channel = 9 then (program + 128) % 256 else program
        .ok (g, [.SetChannelInstrument channel index])
    | .PitchBend bend =>
        let pitch_bend_range_cents : ℚ :=
          (g.pitch_bend_range_coarse : ℚ) * 100 + (g.pitch_bend_range_fine : ℚ) * 1
        let bend_value_normalized : ℚ := bend
        let actual_bend_in_10th_of_cents : ℚ :=
          (pitch_bend_range_cents * 10) * bend_value_normalized
        .ok (g, [.SetChannelPitch channel (i16OfRat actual_bend_in_10th_of_cents)])
    | .Controller controller value =>
        if controller = 7 then
          .ok (g, [.SetChannelVolume channel value])
        else if controller = 10 then
          .ok (g, [.SetChannelPanning channel (value * 2 % 256)])
        else if controller = 100 then
          .ok ({ g with cc100 := (value : Int) }, [])
        else if controller = 101 then
          .ok ({ g with cc101 := (value : Int) }, [])
        else if controller = 6 then
          .ok ((if g.cc100 = 0 ∧ g.cc101 = 0
                then { g with pitch_bend_range_coarse := value } else g), [])
        else if controller = 38 then
          .ok ((if g.cc100 = 0 ∧ g.cc101 = 0
                then { g with pitch_bend_range_fine := value } else g), [])
        else .ok (g, [])
    | .Other => .ok (g, [])
  | .Meta message =>
    match message with
    | .Tempo tempo =>
      match timing with
      | .Metrical tpqn =>
          let ticks_per_quarter_note : ℚ := tpqn
          let microseconds_per_quarter_note : ℚ := tempo
          let microseconds_per_tick : ℚ :=
            microseconds_per_quarter_note / ticks_per_quarter_note
          let seconds_per_tick : ℚ := microseconds_per_tick / 1000000
          let tick_length_multiplier : ℚ := 49152
          let raw_value : Int :=
            min 4095 (max 0 (round (seconds_per_tick * tick_length_multiplier)))
          .ok (g, [.SetTempo raw_value.toNat])
      | .Timecode _ _ => .error timecodePanic
    | .TimeSignature num denomExp _ _ =>
        .ok (g, [.SetTimeSignature num ((1 <<< denomExp) % 256)])
    | .Other => .ok (g, [])
  | .Other => .ok (g, [])

/-- The inner `for event in events` loop over a whole tick group's
event list, threading `GState` and collecting pushed commands. -/
def runEvents (timing : Timing) (g : GState) :
    List TrackEventKind → Except String (GState × List FlanSeqCommand)
  | [] => .ok (g, [])
  | e :: rest =>
    match processEvent timing g e with
    | .error err => .error err
    | .ok (g1, cs1) =>
      match runEvents timing g1 rest with
      | .error err => .error err
      | .ok (g2, cs2) => .ok (g2, cs1 ++ cs2)

/-- The persistent translator state across tick groups:
`prev_time` and the pitch-bend range (`src/main.rs` lines 66–68). -/
structure TState where
  prev_time : Nat
  pitch_bend_range_coarse : Nat
  pitch_bend_range_fine : Nat
deriving DecidableEq

/-- The translator's initial state (`prev_time = 0`, coarse 2,
fine 0; `src/main.rs` lines 66–68). -/
def initTState : TState :=
  { prev_time := 0, pitch_bend_range_coarse := 2, pitch_bend_range_fine := 0 }

/-- One iteration of the outer `for (time, events) in event_map` loop
(`src/main.rs` lines 69–150): if the tick changed, synthesize the
greedy `WaitTicks` run for the gap narrowed to `u16`
(`delta_time as u16`), then process this group's events from a fresh
selector state. -/
def stepGroup (timing : Timing) (acc : TState × List FlanSeqCommand)
    (grp : Nat × List TrackEventKind) :
    Except String (TState × List FlanSeqCommand) :=
  let st := acc.1
  let cmds := acc.2
  let time := grp.1
  let waitCmds : List FlanSeqCommand :=
    if st.prev_time ≠ time then
      (greedyRun ((time - st.prev_time) % 65536)).map
        (fun i => FlanSeqCommand.WaitTicks i)
    else []
  match runEvents timing
      (resetG st.pitch_bend_range_coarse st.pitch_bend_range_fine) grp.2 with
  | .error e => .error e
  | .ok (g, evCmds) =>
      .ok ({ prev_time := time,
             pitch_bend_range_coarse := g.pitch_bend_range_coarse,
             pitch_bend_range_fine := g.pitch_bend_range_fine },
           cmds ++ waitCmds ++ evCmds)

/-- The outer loop over tick groups, threading the translator state
and accumulated command vector. -/
def translateGroups (timing : Timing) (acc : TState × List FlanSeqCommand) :
    List (Nat × List TrackEventKind) →
    Except String (TState × List FlanSeqCommand)
  | [] => .ok acc
  | grp :: rest =>
    match stepGroup timing acc grp with
    | .error e => .error e
    | .ok acc' => translateGroups timing acc' rest

/-- The command-translation phase over a merged timeline given in
ascending tick order (the `BTreeMap` iteration of `src/main.rs`
line 69), returning the final state and all commands. -/
def translateFold (timing : Timing)
    (timeline : List (Nat × List TrackEventKind)) :
    Except String (TState × List FlanSeqCommand) :=
  translateGroups timing (initTState, []) timeline

/-- The translated command list for a timeline (or the panic). -/
def translateTimeline (timing : Timing)
    (timeline : List (Nat × List TrackEventKind)) :
    Except String (List FlanSeqCommand) :=
  (translateFold timing timeline).map Prod.snd

/-- Boolean success test for a translation result. -/
def exceptOk {α : Type} : Except String α → Bool
  | .ok _ => true
  | .error _ => false

/-- A timeline contains a tempo meta-event in some group. -/
def containsTempo (timeline : List (Nat × List TrackEventKind)) : Prop :=
  ∃ grp ∈ timeline, ∃ t, TrackEventKind.Meta (MetaMsg.Tempo t) ∈ grp.2

/-- One entry insertion of the track merger (`src/main.rs` line 60):
`event_map.entry(time).or_insert(Vec::new()).push(event.kind)`.  The
map is modelled as a total function from tick to event list, empty by
default. -/
def insertEvent (m : Nat → List TrackEventKind) (t : Nat)
    (e : TrackEventKind) : Nat → List TrackEventKind :=
  fun t' => if t' = t then m t ++ [e] else m t'

/-- The per-track inner loop of the merger (`src/main.rs`
lines 57–61): a running absolute-tick counter, each delta added
before the event is recorded. -/
def addTrackEvents (time : Nat) (m : Nat → List TrackEventKind) :
    List (Nat × TrackEventKind) → (Nat → List TrackEventKind)
  | [] => m
  | (delta, e) :: rest =>
      addTrackEvents (time + delta) (insertEvent m (time + delta) e) rest

/-- The track merger (`src/main.rs` lines 54–62): tracks processed in
file order, each starting its counter at 0. -/
def buildTimeline (tracks : List (List (Nat × TrackEventKind))) :
    Nat → List TrackEventKind :=
  tracks.foldl (fun m track => addTrackEvents 0 m track) (fun _ => [])

/-- Spec-side reference for the merger: the events of one track paired
with their absolute ticks (running sum of deltas, seeded at `time`). -/
def absolutize (time : Nat) :
    List (Nat × TrackEventKind) → List (Nat × TrackEventKind)
  | [] => []
  | (delta, e) :: rest => (time + delta, e) :: absolutize (time + delta) rest

lemma lut_length : WAIT_TICK_LUT.length = 32 := rfl

lemma lut_pos : ∀ i, i < 32 → 1 ≤ lutv i := by decide

lemma lut_mono : ∀ i, i < 32 → ∀ j, j < 32 → j ≤ i → lutv j ≤ lutv i := by decide

/-- Scanning a reversed `range` with `find?` returns a satisfying
index that is maximal among satisfying indices below `n`. -/
lemma find_rev_range_spec (p : Nat → Bool) :
    ∀ n i, ((List.range n).reverse.find? p) = some i →
      p i = true ∧ i < n ∧ ∀ j, j < n → p j = true → j ≤ i := by
  intro n
  induction n with
  | zero => intro i h; simp at h
  | succ n ih =>
    intro i h
    rw [List.range_succ, List.reverse_append, List.reverse_singleton,
      List.singleton_append] at h
    by_cases hpn : p n = true
    · rw [List.find?_cons_of_pos _ hpn] at h
      obtain rfl : n = i := by simpa using h
      exact ⟨hpn, Nat.lt_succ_self n, fun j hj _ => Nat.lt_succ_iff.mp hj⟩
    · rw [List.find?_cons_of_neg _ (by simpa using hpn)] at h
      obtain ⟨h1, h2, h3⟩ := ih i h
      refine ⟨h1, Nat.lt_succ_of_lt h2, fun j hj hpj => ?_⟩
      rcases Nat.lt_succ_iff_lt_or_eq.mp hj with hj' | rfl
      · exact h3 j hj' hpj
      · exact absurd hpj hpn

/-- What a successful `pickIndex` guarantees: the chosen entry fits,
the index is in range, and the entry is the largest one that fits. -/
lemma pickIndex_spec {g i : Nat} (h : pickIndex g = some i) :
    lutv i ≤ g ∧ i < 32 ∧ ∀ j, j < 32 → lutv j ≤ g → lutv j ≤ lutv i := by
  unfold pickIndex at h
  obtain ⟨h1, h2, h3⟩ := find_rev_range_spec _ _ _ h
  rw [lut_length] at h2 h3
  refine ⟨of_decide_eq_true h1, h2, fun j hj hfit => ?_⟩
  exact lut_mono i h2 j hj (h3 j hj (decide_eq_true hfit))

/-- For a positive remaining gap the scan always finds an entry
(`lutv 0 = 1` fits). -/
lemma pickIndex_isSome {g : Nat} (h : 1 ≤ g) : ∃ i, pickIndex g = some i := by
  cases hp : pickIndex g with
  | some i => exact ⟨i, rfl⟩
  | none =>
    exfalso
    unfold pickIndex at hp
    rw [List.find?_eq_none] at hp
    have h0 : (0 : Nat) ∈ (List.range WAIT_TICK_LUT.length).reverse := by
      simp [lut_length]
    have := hp 0 h0
    simp only [decide_eq_true_eq] at this
    exact this (by simpa [lutv] using h)

/-- The fuel argument is irrelevant as long as it is at least `g`. -/
lemma greedyRunAux_congr :
    ∀ g f1 f2, g ≤ f1 → g ≤ f2 → greedyRunAux f1 g = greedyRunAux f2 g := by
  intro g
  induction g using Nat.strong_induction_on with
  | _ g ih =>
    intro f1 f2 h1 h2
    match f1, f2 with
    | 0, 0 => rfl
    | 0, f2 + 1 =>
      obtain rfl : g = 0 := Nat.le_zero.mp h1
      rfl
    | f1 + 1, 0 =>
      obtain rfl : g = 0 := Nat.le_zero.mp h2
      rfl
    | f1 + 1, f2 + 1 =>
      by_cases hg : g = 0
      · subst hg; rfl
      · simp only [greedyRunAux, hg, if_false]
        cases hp : pickIndex g with
        | none => rfl
        | some i =>
          obtain ⟨hfit, hlt, -⟩ := pickIndex_spec hp
          have hpos := lut_pos i hlt
          have hdec : g - lutv i < g := by omega
          show i :: greedyRunAux f1 (g - lutv i) = i :: greedyRunAux f2 (g - lutv i)
          rw [ih (g - lutv i) hdec f1 f2 (by omega) (by omega)]

/-- Unfolding equation for `greedyRun` on a positive gap. -/
lemma greedyRun_step {g i : Nat} (hg : 1 ≤ g) (hp : pickIndex g = some i) :
    greedyRun g = i :: greedyRun (g - lutv i) := by
  obtain ⟨g', rfl⟩ : ∃ g', g = g' + 1 := ⟨g - 1, by omega⟩
  obtain ⟨hfit, hlt, -⟩ := pickIndex_spec hp
  have hpos := lut_pos i hlt
  show greedyRunAux (g' + 1) (g' + 1) = _
  simp only [greedyRunAux, Nat.succ_ne_zero, if_false, hp]
  unfold greedyRun
  rw [greedyRunAux_congr (g' + 1 - lutv i) g' (g' + 1 - lutv i) (by omega) (by omega)]

/-- The greedy run always accounts for the gap exactly. -/
lemma greedyRun_sum : ∀ g, ((greedyRun g).map lutv).sum = g := by
  intro g
  induction g using Nat.strong_induction_on with
  | _ g ih =>
    rcases Nat.eq_zero_or_pos g with rfl | hpos
    · rfl
    · obtain ⟨i, hp⟩ := pickIndex_isSome hpos
      obtain ⟨hfit, hlt, -⟩ := pickIndex_spec hp
      have hpos' := lut_pos i hlt
      rw [greedyRun_step hpos hp, List.map_cons, List.sum_cons,
        ih (g - lutv i) (by omega)]
      omega

lemma output_foldl (cmds : List FlanSeqCommand) :
    ∀ init : List Nat,
      cmds.foldl (fun out c => out ++ c.serialize) init
        = init ++ (cmds.map FlanSeqCommand.serialize).flatten := by
  induction cmds with
  | nil => intro init; simp
  | cons c rest ih =>
    intro init
    simp only [List.foldl_cons, List.map_cons, List.flatten_cons, ih,
      List.append_assoc]

/-- Low-nibble channel recovery for all six per-channel opcodes. -/
lemma opcode_nibble :
    ∀ c, c < 16 →
      (0x00 ||| c) &&& 0x0F = c ∧ (0x10 ||| c) &&& 0x0F = c
      ∧ (0x20 ||| c) &&& 0x0F = c ∧ (0x30 ||| c) &&& 0x0F = c
      ∧ (0x40 ||| c) &&& 0x0F = c ∧ (0x50 ||| c) &&& 0x0F = c := by
  decide

/-- C1: for every tick gap `g` with `1 ≤ g ≤ 65535`, the `WaitTicks`
run the translator emits for a group `g` ticks after the previous one
is exactly `greedyRun g`, whose LUT entries sum to exactly `g`; the
first emitted command is the largest table denomination that fits in
`g` (scanning the 32-entry table from largest to smallest) and the
rest of the run is the greedy run for the remaining gap; a gap of 0
emits no `WaitTicks` command. -/
theorem wait_run_sums_to_gap (g : Nat) (h1 : 1 ≤ g) (h2 : g ≤ 65535) :
    ((greedyRun g).map lutv).sum = g
    ∧ (∃ i, pickIndex g = some i ∧ greedyRun g = i :: greedyRun (g - lutv i)
        ∧ lutv i ≤ g ∧ ∀ j, j < 32 → lutv j ≤ g → lutv j ≤ lutv i)
    ∧ (∀ timing st cs,
        stepGroup timing (st, cs) (st.prev_time + g, [])
          = .ok ({ st with prev_time := st.prev_time + g },
              cs ++ (greedyRun g).map (fun i => FlanSeqCommand.WaitTicks i)))
    ∧ (∀ timing st cs,
        stepGroup timing (st, cs) (st.prev_time, []) = .ok (st, cs)) := by
  obtain ⟨i, hp⟩ := pickIndex_isSome h1
  obtain ⟨hfit, hlt, hmax⟩ := pickIndex_spec hp
  refine ⟨greedyRun_sum g, ⟨i, hp, greedyRun_step h1 hp, hfit, hmax⟩,
    fun timing st cs => ?_, fun timing st cs => ?_⟩
  · have hne : st.prev_time ≠ st.prev_time + g := by omega
    have hmod : (st.prev_time + g - st.prev_time) % 65536 = g := by
      omega
    simp only [stepGroup, runEvents, hne, if_true, reduceIte, hmod]
    simp [resetG]
    exact fun hg0 => absurd hg0 (by omega)
  · simp [stepGroup, runEvents, resetG]

/-- Witness for `wait_run_sums_to_gap` at the concrete gap 100. -/
theorem wait_run_sums_to_gap_witness :
    1 ≤ 100 ∧ 100 ≤ 65535 ∧
      (((greedyRun 100).map lutv).sum = 100
      ∧ (∃ i, pickIndex 100 = some i
          ∧ greedyRun 100 = i :: greedyRun (100 - lutv i)
          ∧ lutv i ≤ 100 ∧ ∀ j, j < 32 → lutv j ≤ 100 → lutv j ≤ lutv i)
      ∧ (∀ timing st cs,
          stepGroup timing (st, cs) (st.prev_time + 100, [])
            = .ok ({ st with prev_time := st.prev_time + 100 },
                cs ++ (greedyRun 100).map (fun i => FlanSeqCommand.WaitTicks i)))
      ∧ (∀ timing st cs,
          stepGroup timing (st, cs) (st.prev_time, []) = .ok (st, cs))) :=
  ⟨by decide, by decide, wait_run_sums_to_gap 100 (by decide) (by decide)⟩

/-- C5: every command serializes to the fixed-width byte sequence of
the §4.3 table, and for every per-channel command with channel below
16 the low nibble of the first serialized byte recovers the
channel. -/
theorem serialize_matches_table (ch v w tempo iLut : Nat) (pitch : Int)
    (hch : ch < 16) :
    (FlanSeqCommand.ReleaseNote ch v).serialize = [0x00 ||| ch, v]
    ∧ (FlanSeqCommand.PlayNote ch v w).serialize = [0x10 ||| ch, v, w]
    ∧ (FlanSeqCommand.SetChannelVolume ch v).serialize = [0x20 ||| ch, v]
    ∧ (FlanSeqCommand.SetChannelPanning ch v).serialize = [0x30 ||| ch, v]
    ∧ (FlanSeqCommand.SetChannelPitch ch pitch).serialize
        = [0x40 ||| ch, (pitch % 65536).toNat % 256, (pitch % 65536).toNat / 256]
    ∧ (FlanSeqCommand.SetChannelInstrument ch v).serialize = [0x50 ||| ch, v]
    ∧ (tempo < 65536 →
        (FlanSeqCommand.SetTempo tempo).serialize
          = [0x80 ||| (tempo >>> 8), tempo &&& 0xFF])
    ∧ (iLut < 32 →
        (FlanSeqCommand.WaitTicks iLut).serialize = [0xA0 + iLut])
    ∧ (FlanSeqCommand.SetTimeSignature v w).serialize = [0xFD, v, w]
    ∧ FlanSeqCommand.SetLoopStart.serialize = [0xFE]
    ∧ FlanSeqCommand.JumpToLoopStart.serialize = [0xFF]
    ∧ ((FlanSeqCommand.ReleaseNote ch v).serialize.headD 0) &&& 0x0F = ch
    ∧ ((FlanSeqCommand.PlayNote ch v w).serialize.headD 0) &&& 0x0F = ch
    ∧ ((FlanSeqCommand.SetChannelVolume ch v).serialize.headD 0) &&& 0x0F = ch
    ∧ ((FlanSeqCommand.SetChannelPanning ch v).serialize.headD 0) &&& 0x0F = ch
    ∧ ((FlanSeqCommand.SetChannelPitch ch pitch).serialize.headD 0) &&& 0x0F = ch
    ∧ ((FlanSeqCommand.SetChannelInstrument ch v).serialize.headD 0) &&& 0x0F
        = ch := by
  obtain ⟨n0, n1, n2, n3, n4, n5⟩ := opcode_nibble ch hch
  refine ⟨rfl, rfl, rfl, rfl, rfl, rfl, fun ht => ?_, fun hi => ?_,
    rfl, rfl, rfl, ?_, ?_, ?_, ?_, ?_, ?_⟩
  · have : tempo >>> 8 < 256 := by
      rw [Nat.shiftRight_eq_div_pow]; omega
    simp only [FlanSeqCommand.serialize, Nat.mod_eq_of_lt this]
  · simp only [FlanSeqCommand.serialize]
    rw [Nat.mod_eq_of_lt (by omega : iLut < 256),
      Nat.mod_eq_of_lt (by omega : 0xA0 + iLut < 256)]
  · exact n0
  · exact n1
  · exact n2
  · exact n3
  · exact n4
  · exact n5

/-- Witness for `serialize_matches_table` at channel 11. -/
theorem serialize_matches_table_witness :
    11 < 16 ∧
      ((FlanSeqCommand.ReleaseNote 11 60).serialize = [0x00 ||| 11, 60]
      ∧ (FlanSeqCommand.PlayNote 11 60 100).serialize = [0x10 ||| 11, 60, 100]
      ∧ (FlanSeqCommand.SetChannelVolume 11 60).serialize = [0x20 ||| 11, 60]
      ∧ (FlanSeqCommand.SetChannelPanning 11 60).serialize = [0x30 ||| 11, 60]
      ∧ (FlanSeqCommand.SetChannelPitch 11 (-2)).serialize
          = [0x40 ||| 11, ((-2 : Int) % 65536).toNat % 256,
             ((-2 : Int) % 65536).toNat / 256]
      ∧ (FlanSeqCommand.SetChannelInstrument 11 60).serialize
          = [0x50 ||| 11, 60]
      ∧ (513 < 65536 →
          (FlanSeqCommand.SetTempo 513).serialize
            = [0x80 ||| (513 >>> 8), 513 &&& 0xFF])
      ∧ (31 < 32 →
          (FlanSeqCommand.WaitTicks 31).serialize = [0xA0 + 31])
      ∧ (FlanSeqCommand.SetTimeSignature 60 100).serialize = [0xFD, 60, 100]
      ∧ FlanSeqCommand.SetLoopStart.serialize = [0xFE]
      ∧ FlanSeqCommand.JumpToLoopStart.serialize = [0xFF]
      ∧ ((FlanSeqCommand.ReleaseNote 11 60).serialize.headD 0) &&& 0x0F = 11
      ∧ ((FlanSeqCommand.PlayNote 11 60 100).serialize.headD 0) &&& 0x0F = 11
      ∧ ((FlanSeqCommand.SetChannelVolume 11 60).serialize.headD 0) &&& 0x0F
          = 11
      ∧ ((FlanSeqCommand.SetChannelPanning 11 60).serialize.headD 0) &&& 0x0F
          = 11
      ∧ ((FlanSeqCommand.SetChannelPitch 11 (-2)).serialize.headD 0) &&& 0x0F
          = 11
      ∧ ((FlanSeqCommand.SetChannelInstrument 11 60).serialize.headD 0)
          &&& 0x0F = 11) :=
  ⟨by decide, serialize_matches_table 11 60 100 513 31 (-2) (by decide)⟩

/-- C7 counterexample: the fixed FDSS header is 20 bytes (4-byte magic
plus four little-endian `u32` fields), not 16 as the claim counts;
the output for an empty command list is exactly those 20 bytes. -/
theorem header_not_16_bytes :
    outputBytes [] = [0x46, 0x44, 0x53, 0x53, 1, 0, 0, 0, 0, 0, 0, 0,
      4, 0, 0, 0, 0, 0, 0, 0]
    ∧ (outputBytes []).length = 20
    ∧ ¬ (outputBytes []).length = 16 := by
  refine ⟨rfl, rfl, by decide⟩

/-- C7 (amended): for every input, the output byte buffer begins with
the fixed 20-byte header `46 44 53 53 01 00 00 00 00 00 00 00 04 00
00 00 00 00 00 00` (magic "FDSS", `u32` section count 1, `u32`
section-table offset 0, `u32` section-data offset 4, `u32` first
section start 0), followed immediately by the concatenated serialized
commands. -/
theorem output_header_layout (cmds : List FlanSeqCommand) :
    outputBytes cmds = [0x46, 0x44, 0x53, 0x53, 1, 0, 0, 0, 0, 0, 0, 0,
        4, 0, 0, 0, 0, 0, 0, 0] ++ (cmds.map FlanSeqCommand.serialize).flatten
    ∧ headerBytes.length = 20 := by
  constructor
  · rw [outputBytes, output_foldl]; rfl
  · rfl

lemma addTrackEvents_spec (track : List (Nat × TrackEventKind)) :
    ∀ (time : Nat) (m : Nat → List TrackEventKind) (t : Nat),
      addTrackEvents time m track t
        = m t ++ ((absolutize time track).filter
            (fun p => p.1 == t)).map Prod.snd := by
  induction track with
  | nil => intro time m t; simp [addTrackEvents, absolutize]
  | cons pr rest ih =>
    intro time m t
    obtain ⟨delta, e⟩ := pr
    simp only [addTrackEvents, absolutize, List.filter_cons]
    rw [ih]
    by_cases h : time + delta = t
    · subst h
      simp [insertEvent]
    · have hb : ((time + delta, e).1 == t) = false := by
        simpa using h
      simp only [hb, cond_false]
      simp [insertEvent, h]
      exact fun h' => absurd h'.symm h

lemma buildTimeline_foldl (tracks : List (List (Nat × TrackEventKind))) :
    ∀ (m : Nat → List TrackEventKind) (t : Nat),
      (tracks.foldl (fun m track => addTrackEvents 0 m track) m) t
        = m t ++ (tracks.map (fun track =>
            ((absolutize 0 track).filter
              (fun p => p.1 == t)).map Prod.snd)).flatten := by
  induction tracks with
  | nil => intro m t; simp
  | cons track rest ih =>
    intro m t
    simp only [List.foldl_cons, List.map_cons, List.flatten_cons]
    rw [ih, addTrackEvents_spec]
    simp [List.append_assoc]

/-- C6: the merged timeline records every event under the absolute
tick given by the running sum of deltas along its own track (counter
seeded at 0, each delta added before recording), and the event list
of any tick is the concatenation, in track-processing order, of each
track's events at that tick in original intra-track order. -/
theorem merger_timeline_spec (tracks : List (List (Nat × TrackEventKind)))
    (t : Nat) :
    buildTimeline tracks t
      = (tracks.map (fun track =>
          ((absolutize 0 track).filter
            (fun p => p.1 == t)).map Prod.snd)).flatten := by
  unfold buildTimeline
  rw [buildTimeline_foldl]
  simp

/-- C9: a program-change event emits `SetChannelInstrument` with the
raw program number, except on the percussion channel 9 where 128 is
added. -/
theorem program_change_index (timing : Timing) (g : GState)
    (ch program : Nat) (h : program < 128) :
    processEvent timing g (.Midi ch (.ProgramChange program))
      = .ok (g, [.SetChannelInstrument ch
          (if ch = 9 then program + 128 else program)]) := by
  by_cases hch : ch = 9
  · simp [processEvent, hch, Nat.mod_eq_of_lt (by omega : program + 128 < 256)]
  · simp [processEvent, hch]

/-- Witness for `program_change_index`: program 5 on the percussion
channel maps to instrument index 133. -/
theorem program_change_index_witness :
    5 < 128 ∧
      processEvent (.Metrical 48) (resetG 2 0) (.Midi 9 (.ProgramChange 5))
        = .ok (resetG 2 0, [.SetChannelInstrument 9
            (if 9 = 9 then 5 + 128 else 5)]) :=
  ⟨by decide, program_change_index (.Metrical 48) (resetG 2 0) 9 5 (by decide)⟩

lemma runEvents_cons_err {timing : Timing} {g : GState} {e : TrackEventKind}
    {err : String} (hpe : processEvent timing g e = .error err)
    (rest : List TrackEventKind) :
    runEvents timing g (e :: rest) = .error err := by
  simp only [runEvents, hpe]

lemma runEvents_cons_ok {timing : Timing} {g ga : GState}
    {e : TrackEventKind} {csa : List FlanSeqCommand}
    (hpe : processEvent timing g e = .ok (ga, csa))
    (rest : List TrackEventKind) :
    runEvents timing g (e :: rest)
      = match runEvents timing ga rest with
        | .error err => .error err
        | .ok (g2, cs2) => .ok (g2, csa ++ cs2) := by
  simp only [runEvents, hpe]

lemma runEvents_append_ok {timing : Timing} {g g1 : GState}
    {pre : List TrackEventKind} {cs1 : List FlanSeqCommand}
    (h : runEvents timing g pre = .ok (g1, cs1))
    (post : List TrackEventKind) :
    runEvents timing g (pre ++ post)
      = match runEvents timing g1 post with
        | .error e => .error e
        | .ok (g2, cs2) => .ok (g2, cs1 ++ cs2) := by
  induction pre generalizing g cs1 with
  | nil =>
    obtain ⟨rfl, rfl⟩ : g = g1 ∧ [] = cs1 := by
      simpa [runEvents] using h
    cases hr : runEvents timing g post with
    | error e => simp [hr]
    | ok r =>
      obtain ⟨g2, cs2⟩ := r
      simp [hr]
  | cons e rest ih =>
    cases hpe : processEvent timing g e with
    | error err =>
      rw [runEvents_cons_err hpe] at h
      exact absurd h (by simp)
    | ok r =>
      obtain ⟨ga, csa⟩ := r
      rw [runEvents_cons_ok hpe] at h
      rw [List.cons_append, runEvents_cons_ok hpe]
      cases hrest : runEvents timing ga rest with
      | error err =>
        rw [hrest] at h
        exact absurd h (by simp)
      | ok r2 =>
        obtain ⟨gb, csb⟩ := r2
        rw [hrest] at h
        simp only [] at h
        obtain ⟨h1, h2⟩ : gb = g1 ∧ csa ++ csb = cs1 := by simpa using h
        subst h1
        subst h2
        rw [ih hrest]
        cases hr : runEvents timing gb post with
        | error e2 => simp
        | ok r3 =>
          obtain ⟨g2, cs2⟩ := r3
          simp [List.append_assoc]

/-- C2: within a tick group, a controller-6 (38) data-entry event
updates the stored coarse (fine) pitch-bend range to its value if and
only if both RPN selectors recorded earlier in the same group are 0,
and leaves it unchanged otherwise; the selectors start each group at
-1 ("unset"), so selectors set in a previous tick group never enable
an update: the same controller-100/101 = 0, controller-6 sequence
updates the range when sent in one group and not when the data entry
arrives in the next group. -/
theorem rpn_update_scoped :
    (∀ (timing : Timing) (coarse fine : Nat) (pre : List TrackEventKind)
        (g : GState) (cs : List FlanSeqCommand) (ch v : Nat),
      runEvents timing (resetG coarse fine) pre = .ok (g, cs) →
      runEvents timing (resetG coarse fine)
          (pre ++ [.Midi ch (.Controller 6 v)])
        = .ok ((if g.cc100 = 0 ∧ g.cc101 = 0
                then { g with pitch_bend_range_coarse := v } else g), cs))
    ∧ (∀ (timing : Timing) (coarse fine : Nat) (pre : List TrackEventKind)
        (g : GState) (cs : List FlanSeqCommand) (ch v : Nat),
      runEvents timing (resetG coarse fine) pre = .ok (g, cs) →
      runEvents timing (resetG coarse fine)
          (pre ++ [.Midi ch (.Controller 38 v)])
        = .ok ((if g.cc100 = 0 ∧ g.cc101 = 0
                then { g with pitch_bend_range_fine := v } else g), cs))
    ∧ translateFold (.Metrical 1)
        [(0, [.Midi 0 (.Controller 100 0), .Midi 0 (.Controller 101 0),
              .Midi 0 (.Controller 6 9)])]
        = .ok ({ prev_time := 0, pitch_bend_range_coarse := 9,
                 pitch_bend_range_fine := 0 }, [])
    ∧ translateFold (.Metrical 1)
        [(0, [.Midi 0 (.Controller 100 0), .Midi 0 (.Controller 101 0)]),
         (1, [.Midi 0 (.Controller 6 9)])]
        = .ok ({ prev_time := 1, pitch_bend_range_coarse := 2,
                 pitch_bend_range_fine := 0 }, [.WaitTicks 0]) := by
  refine ⟨fun timing coarse fine pre g cs ch v h => ?_,
    fun timing coarse fine pre g cs ch v h => ?_, rfl, rfl⟩
  · rw [runEvents_append_ok h]
    simp [runEvents, processEvent]
  · rw [runEvents_append_ok h]
    simp [runEvents, processEvent]

/-- Witness for `rpn_update_scoped`: after controllers 100 = 0 and
101 = 0 in the same group, a controller-6 value 9 updates the coarse
range. -/
theorem rpn_update_scoped_witness :
    runEvents (.Metrical 1) (resetG 2 0)
        [.Midi 0 (.Controller 100 0), .Midi 0 (.Controller 101 0)]
      = .ok ({ pitch_bend_range_coarse := 2, pitch_bend_range_fine := 0,
               cc100 := 0, cc101 := 0 }, [])
    ∧ runEvents (.Metrical 1) (resetG 2 0)
        ([.Midi 0 (.Controller 100 0), .Midi 0 (.Controller 101 0)]
          ++ [.Midi 0 (.Controller 6 9)])
      = .ok ((if (0 : Int) = 0 ∧ (0 : Int) = 0
              then { pitch_bend_range_coarse := 9, pitch_bend_range_fine := 0,
                     cc100 := 0, cc101 := 0 }
              else { pitch_bend_range_coarse := 2, pitch_bend_range_fine := 0,
                     cc100 := 0, cc101 := 0 }), []) :=
  ⟨rfl, rpn_update_scoped.1 (.Metrical 1) 2 0
    [.Midi 0 (.Controller 100 0), .Midi 0 (.Controller 101 0)]
    { pitch_bend_range_coarse := 2, pitch_bend_range_fine := 0,
      cc100 := 0, cc101 := 0 } [] 0 9 rfl⟩

/-- C3 counterexample: with the default range (coarse 2, fine 0) and
the normalized bend value 3/8192 (an exactly representable `f32`
bend), the translator emits pitch 0 — the `as i16` cast truncates —
while rounding the same product 2000·(3/8192) = 375/512 would give 1,
so the emitted pitch is not `round(rangeCents * 10 * bend)`. -/
theorem pitch_round_counterexample :
    processEvent (.Metrical 48) (resetG 2 0) (.Midi 0 (.PitchBend (3 / 8192)))
      = .ok (resetG 2 0, [.SetChannelPitch 0 0])
    ∧ round (((((2 : ℚ) * 100) + 0) * 10) * (3 / 8192)) = 1
    ∧ (0 : Int) ≠ 1 := by
  refine ⟨?_, ?_, by decide⟩
  · have htr : truncRat (375 / 512 : ℚ) = 0 := by
      rw [truncRat, if_pos (by norm_num : (0 : ℚ) ≤ 375 / 512)]
      rw [Int.floor_eq_zero_iff]
      constructor <;> norm_num
    have hi : i16OfRat (375 / 512 : ℚ) = 0 := by
      rw [i16OfRat, htr]; decide
    have harg :
        ((((((2 : Nat) : ℚ)) * 100 + (((0 : Nat) : ℚ)) * 1) * 10)
          * (3 / 8192 : ℚ)) = 375 / 512 := by norm_num
    simp only [processEvent, resetG, harg, hi]
  · have harg : (((((2 : ℚ) * 100) + 0) * 10) * (3 / 8192)) = 375 / 512 := by
      norm_num
    rw [harg, round_eq]
    have h2 : (375 / 512 : ℚ) + 1 / 2 = 631 / 512 := by norm_num
    rw [h2, Int.floor_eq_iff]
    constructor <;> norm_num

/-- C3 (amended): for every pitch-bend event the emitted
`SetChannelPitch` pitch equals the truncation toward zero (saturated
to the signed 16-bit range) of
`(coarse*100 + fine) * 10 * normalizedBendValue`; with the default
coarse 2, fine 0 and a maximal positive normalized bend of +1.0 the
emitted pitch equals 2000. -/
theorem pitch_bend_truncates (timing : Timing) (g : GState) (ch : Nat)
    (x : ℚ) :
    processEvent timing g (.Midi ch (.PitchBend x))
      = .ok (g, [.SetChannelPitch ch
          (max (-32768) (min 32767 (truncRat
            (((g.pitch_bend_range_coarse : ℚ) * 100
              + (g.pitch_bend_range_fine : ℚ)) * 10 * x))))])
    ∧ i16OfRat ((((2 : ℚ) * 100 + 0) * 10) * 1) = 2000 := by
  constructor
  · simp only [processEvent, i16OfRat, mul_one]
  · have harg : ((((2 : ℚ) * 100 + 0) * 10) * 1) = ((2000 : Int) : ℚ) := by
      norm_num
    rw [i16OfRat, harg, truncRat,
      if_pos (by norm_num : (0 : ℚ) ≤ ((2000 : Int) : ℚ)), Int.floor_intCast]
    decide

/-- C4: for a tempo meta-event under a metrical time division with
`tpqn > 0` ticks per quarter note, the emitted `SetTempo` value is
`round(tempo · 49152 / (tpqn · 10^6))` clamped to `[0, 4095]`; tempo
500000 at 48 ticks per quarter note yields 512, and extreme tempos
clamp to 4095 and 0. -/
theorem tempo_formula (g : GState) (tempo tpqn : Nat) (h : 0 < tpqn) :
    processEvent (.Metrical tpqn) g (.Meta (.Tempo tempo))
      = .ok (g, [.SetTempo
          (Int.toNat (min 4095 (max 0
            (round ((tempo : ℚ) * 49152 / ((tpqn : ℚ) * 1000000))))))])
    ∧ processEvent (.Metrical 48) (resetG 2 0) (.Meta (.Tempo 500000))
        = .ok (resetG 2 0, [.SetTempo 512])
    ∧ processEvent (.Metrical 1) (resetG 2 0) (.Meta (.Tempo 100000000))
        = .ok (resetG 2 0, [.SetTempo 4095])
    ∧ processEvent (.Metrical 48) (resetG 2 0) (.Meta (.Tempo 0))
        = .ok (resetG 2 0, [.SetTempo 0]) := by
  have hform : ∀ (t n : ℚ),
      t / n / 1000000 * 49152 = t * 49152 / (n * 1000000) := by
    intro t n
    rw [div_div, div_mul_eq_mul_div]
  refine ⟨?_, ?_, ?_, ?_⟩
  · simp only [processEvent, hform]
  · have : ((500000 : Nat) : ℚ) / ((48 : Nat) : ℚ) / 1000000 * 49152
        = ((512 : Int) : ℚ) := by norm_num
    simp only [processEvent, this, round_intCast]
    rfl
  · have : ((100000000 : Nat) : ℚ) / ((1 : Nat) : ℚ) / 1000000 * 49152
        = ((4915200 : Int) : ℚ) := by norm_num
    simp only [processEvent, this, round_intCast]
    rfl
  · have : ((0 : Nat) : ℚ) / ((48 : Nat) : ℚ) / 1000000 * 49152
        = ((0 : Int) : ℚ) := by norm_num
    simp only [processEvent, this, round_intCast]
    rfl

/-- Witness for `tempo_formula` at tempo 500000, 48 ticks per
quarter note. -/
theorem tempo_formula_witness :
    0 < 48 ∧
      (processEvent (.Metrical 48) (resetG 2 0) (.Meta (.Tempo 500000))
        = .ok (resetG 2 0, [.SetTempo
            (Int.toNat (min 4095 (max 0
              (round (((500000 : Nat) : ℚ) * 49152
                / (((48 : Nat) : ℚ) * 1000000))))))])
      ∧ processEvent (.Metrical 48) (resetG 2 0) (.Meta (.Tempo 500000))
          = .ok (resetG 2 0, [.SetTempo 512])
      ∧ processEvent (.Metrical 1) (resetG 2 0) (.Meta (.Tempo 100000000))
          = .ok (resetG 2 0, [.SetTempo 4095])
      ∧ processEvent (.Metrical 48) (resetG 2 0) (.Meta (.Tempo 0))
          = .ok (resetG 2 0, [.SetTempo 0])) :=
  ⟨by decide, tempo_formula (resetG 2 0) 500000 48 (by decide)⟩

lemma processEvent_metrical_ok (n : Nat) (g : GState) (e : TrackEventKind) :
    ∃ r, processEvent (.Metrical n) g e = .ok r := by
  cases e with
  | Midi ch msg =>
    cases msg with
    | NoteOn k v => exact ⟨_, rfl⟩
    | NoteOff k v => exact ⟨_, rfl⟩
    | ProgramChange p => exact ⟨_, rfl⟩
    | PitchBend b => exact ⟨_, rfl⟩
    | Controller c v =>
      simp only [processEvent]
      split_ifs <;> exact ⟨_, rfl⟩
    | Other => exact ⟨_, rfl⟩
  | Meta m =>
    cases m with
    | Tempo t => exact ⟨_, rfl⟩
    | TimeSignature a b c d => exact ⟨_, rfl⟩
    | Other => exact ⟨_, rfl⟩
  | Other => exact ⟨_, rfl⟩

lemma processEvent_timecode_ok_or_tempo (f s : Nat) (g : GState)
    (e : TrackEventKind) :
    (∃ r, processEvent (.Timecode f s) g e = .ok r)
    ∨ ∃ t, e = .Meta (.Tempo t) := by
  cases e with
  | Midi ch msg =>
    cases msg with
    | NoteOn k v => exact .inl ⟨_, rfl⟩
    | NoteOff k v => exact .inl ⟨_, rfl⟩
    | ProgramChange p => exact .inl ⟨_, rfl⟩
    | PitchBend b => exact .inl ⟨_, rfl⟩
    | Controller c v =>
      refine .inl ?_
      simp only [processEvent]
      split_ifs <;> exact ⟨_, rfl⟩
    | Other => exact .inl ⟨_, rfl⟩
  | Meta m =>
    cases m with
    | Tempo t => exact .inr ⟨t, rfl⟩
    | TimeSignature a b c d => exact .inl ⟨_, rfl⟩
    | Other => exact .inl ⟨_, rfl⟩
  | Other => exact .inl ⟨_, rfl⟩

lemma runEvents_metrical_ok (n : Nat) (evs : List TrackEventKind) :
    ∀ g, ∃ r, runEvents (.Metrical n) g evs = .ok r := by
  induction evs with
  | nil => intro g; exact ⟨_, rfl⟩
  | cons e rest ih =>
    intro g
    obtain ⟨⟨g1, cs1⟩, hpe⟩ := processEvent_metrical_ok n g e
    obtain ⟨⟨g2, cs2⟩, hre⟩ := ih g1
    exact ⟨(g2, cs1 ++ cs2), by rw [runEvents_cons_ok hpe, hre]⟩

lemma runEvents_timecode_err (f s : Nat) (evs : List TrackEventKind) :
    ∀ g t, TrackEventKind.Meta (MetaMsg.Tempo t) ∈ evs →
      ∃ msg, runEvents (.Timecode f s) g evs = .error msg := by
  induction evs with
  | nil => intro g t h; simp at h
  | cons e rest ih =>
    intro g t h
    rcases processEvent_timecode_ok_or_tempo f s g e with ⟨⟨g1, cs1⟩, hpe⟩
      | ⟨t', rfl⟩
    · rcases List.mem_cons.mp h with rfl | hmem
      · rw [show processEvent (.Timecode f s) g (.Meta (.Tempo t))
            = .error timecodePanic from rfl] at hpe
        exact absurd hpe (by simp)
      · obtain ⟨msg, hre⟩ := ih g1 t hmem
        exact ⟨msg, by rw [runEvents_cons_ok hpe, hre]⟩
    · exact ⟨timecodePanic, runEvents_cons_err
        (show processEvent (.Timecode f s) g (.Meta (.Tempo t'))
          = .error timecodePanic from rfl) rest⟩

lemma stepGroup_metrical_ok (n : Nat) (acc : TState × List FlanSeqCommand)
    (grp : Nat × List TrackEventKind) :
    ∃ r, stepGroup (.Metrical n) acc grp = .ok r := by
  obtain ⟨⟨g, cs⟩, hre⟩ := runEvents_metrical_ok n grp.2
    (resetG acc.1.pitch_bend_range_coarse acc.1.pitch_bend_range_fine)
  refine ⟨({ prev_time := grp.1,
             pitch_bend_range_coarse := g.pitch_bend_range_coarse,
             pitch_bend_range_fine := g.pitch_bend_range_fine },
           (acc.2 ++ (if acc.1.prev_time ≠ grp.1 then
              (greedyRun ((grp.1 - acc.1.prev_time) % 65536)).map
                (fun i => FlanSeqCommand.WaitTicks i) else [])) ++ cs), ?_⟩
  simp only [stepGroup, hre]

lemma stepGroup_timecode_err {f s : Nat} {grp : Nat × List TrackEventKind}
    (h : ∃ t, TrackEventKind.Meta (MetaMsg.Tempo t) ∈ grp.2)
    (acc : TState × List FlanSeqCommand) :
    ∃ msg, stepGroup (.Timecode f s) acc grp = .error msg := by
  obtain ⟨t, hmem⟩ := h
  obtain ⟨msg, hre⟩ := runEvents_timecode_err f s grp.2
    (resetG acc.1.pitch_bend_range_coarse acc.1.pitch_bend_range_fine) t hmem
  exact ⟨msg, by simp only [stepGroup, hre]⟩

lemma translateGroups_metrical_ok (n : Nat)
    (tl : List (Nat × List TrackEventKind)) :
    ∀ acc, ∃ r, translateGroups (.Metrical n) acc tl = .ok r := by
  induction tl with
  | nil => intro acc; exact ⟨acc, rfl⟩
  | cons grp rest ih =>
    intro acc
    obtain ⟨acc', hsg⟩ := stepGroup_metrical_ok n acc grp
    obtain ⟨r, hr⟩ := ih acc'
    exact ⟨r, by rw [translateGroups, hsg]; exact hr⟩

lemma translateGroups_timecode_err (f s : Nat)
    (tl : List (Nat × List TrackEventKind)) :
    ∀ acc, (∃ grp ∈ tl, ∃ t,
        TrackEventKind.Meta (MetaMsg.Tempo t) ∈ grp.2) →
      ∃ msg, translateGroups (.Timecode f s) acc tl = .error msg := by
  induction tl with
  | nil => intro acc h; simp at h
  | cons grp rest ih =>
    intro acc h
    obtain ⟨grpx, hmem, t, ht⟩ := h
    rcases List.mem_cons.mp hmem with rfl | hmem'
    · obtain ⟨msg, hsg⟩ := stepGroup_timecode_err ⟨t, ht⟩ acc
      exact ⟨msg, by rw [translateGroups, hsg]⟩
    · cases hsg : stepGroup (.Timecode f s) acc grp with
      | error msg => exact ⟨msg, by rw [translateGroups, hsg]⟩
      | ok acc' =>
        obtain ⟨msg, hr⟩ := ih acc' ⟨grpx, hmem', t, ht⟩
        exact ⟨msg, by rw [translateGroups, hsg]; exact hr⟩

/-- C8: translating a tempo meta-event under a timecode time division
is fatal — the translation of any timeline containing a tempo event
aborts with the panic and produces no command list — while under a
metrical time division translation always succeeds and the tempo
event is translated into a `SetTempo` command. -/
theorem timecode_tempo_fatal :
    (∀ (f s : Nat) (tl : List (Nat × List TrackEventKind)),
        containsTempo tl →
        exceptOk (translateTimeline (.Timecode f s) tl) = false)
    ∧ (∀ (n : Nat) (tl : List (Nat × List TrackEventKind)),
        exceptOk (translateTimeline (.Metrical n) tl) = true)
    ∧ (∀ (f s : Nat) (g : GState) (t : Nat),
        processEvent (.Timecode f s) g (.Meta (.Tempo t))
          = .error timecodePanic)
    ∧ (∀ (n : Nat) (g : GState) (t : Nat),
        ∃ v, processEvent (.Metrical n) g (.Meta (.Tempo t))
          = .ok (g, [.SetTempo v])) := by
  refine ⟨fun f s tl h => ?_, fun n tl => ?_, fun f s g t => rfl,
    fun n g t => ⟨_, rfl⟩⟩
  · obtain ⟨msg, he⟩ := translateGroups_timecode_err f s tl (initTState, []) h
    simp [translateTimeline, translateFold, he, exceptOk, Except.map]
  · obtain ⟨⟨st, cs⟩, he⟩ := translateGroups_metrical_ok n tl (initTState, [])
    simp [translateTimeline, translateFold, he, exceptOk, Except.map]

/-- Witness for `timecode_tempo_fatal`: a one-group timeline holding
a tempo event fails to translate under a timecode division. -/
theorem timecode_tempo_fatal_witness :
    containsTempo [(0, [.Meta (.Tempo 500000)])]
    ∧ exceptOk (translateTimeline (.Timecode 25 40)
        [(0, [.Meta (.Tempo 500000)])]) = false :=
  ⟨⟨(0, [.Meta (.Tempo 500000)]), by simp, 500000, by simp⟩,
   timecode_tempo_fatal.1 25 40 [(0, [.Meta (.Tempo 500000)])]
     ⟨(0, [.Meta (.Tempo 500000)]), by simp, 500000, by simp⟩⟩

/-- C10: when the gap between the previous and current timeline tick
exceeds 65535, the translator still succeeds: the gap is narrowed
modulo 2^16 before quantization, so the emitted `WaitTicks` run sums
to the gap mod 65536 — which differs from the true gap — while
`prev_time` is still advanced to the current tick. -/
theorem gap_truncated_mod_u16 (timing : Timing) (st : TState)
    (cs : List FlanSeqCommand) (time : Nat)
    (h1 : st.prev_time < time) (h2 : 65535 < time - st.prev_time) :
    stepGroup timing (st, cs) (time, [])
      = .ok ({ st with prev_time := time },
          cs ++ (greedyRun ((time - st.prev_time) % 65536)).map
            (fun i => FlanSeqCommand.WaitTicks i))
    ∧ ((greedyRun ((time - st.prev_time) % 65536)).map lutv).sum
        = (time - st.prev_time) % 65536
    ∧ ¬ ((greedyRun ((time - st.prev_time) % 65536)).map lutv).sum
        = time - st.prev_time := by
  have hne : st.prev_time ≠ time := by omega
  refine ⟨?_, greedyRun_sum _, ?_⟩
  · simp only [stepGroup, runEvents, hne, reduceIte]
    simp [resetG]
    exact fun h' => absurd h' hne
  · rw [greedyRun_sum]
    have : (time - st.prev_time) % 65536 < 65536 := Nat.mod_lt _ (by omega)
    omega

/-- Witness for `gap_truncated_mod_u16` at a gap of 65546 ticks. -/
theorem gap_truncated_mod_u16_witness :
    initTState.prev_time < 65546 ∧ 65535 < 65546 - initTState.prev_time ∧
      (stepGroup (.Metrical 1) (initTState, []) (65546, [])
        = .ok ({ initTState with prev_time := 65546 },
            [] ++ (greedyRun ((65546 - initTState.prev_time) % 65536)).map
              (fun i => FlanSeqCommand.WaitTicks i))
      ∧ ((greedyRun ((65546 - initTState.prev_time) % 65536)).map lutv).sum
          = (65546 - initTState.prev_time) % 65536
      ∧ ¬ ((greedyRun ((65546 - initTState.prev_time) % 65536)).map lutv).sum
          = 65546 - initTState.prev_time) :=
  ⟨by decide, by decide,
   gap_truncated_mod_u16 (.Metrical 1) initTState [] 65546
     (by decide) (by decide)⟩
